import Mathlib

set_option maxRecDepth 100000

/-!
# Verification of the BeyondChats article-enhancement pipeline

A shallow embedding of the repository's pipeline code:

* `src/services/contentExtractor.ts` — `extractArticleContent`, `cleanContent`,
  `extractMultipleArticles` (the layered body-text selection algorithm);
* `src/services/googleSearch.ts` — `searchGoogle` (result filtering/truncation);
* `src/services/scraper.ts` — the link-collection and last-5 selection of
  `scrapeBeyondChatsArticles`;
* `src/services/llmService.ts` — `rewriteArticle` with the Gemini rate-limit
  retry loop;
* `src/controllers/articleController.ts` — `createArticle`, `updateArticle`,
  `scrapeArticles` persistence, and the `enhanceArticles` batch loop;
* `src/scripts` update script — the standalone per-article loop.

External effects (the headless browser, the DOM, the LLM backends, the Prisma
store) are modelled as explicit inputs: a fetched page becomes a value, a
backend becomes a function, the store becomes a list of records.
-/

namespace BeyondChats

/-! ## JavaScript string helpers

`jsWs` is the character class of the JavaScript regex `\s` (as used by
`.replace(/\s+/g, ' ')` and `.trim()` in `cleanContent`). -/

def jsWs (c : Char) : Bool :=
  let n := c.toNat
  n = 0x20 || n = 0x09 || n = 0x0a || n = 0x0b || n = 0x0c || n = 0x0d ||
  n = 0xa0 || n = 0x1680 || (0x2000 ≤ n && n ≤ 0x200a) ||
  n = 0x2028 || n = 0x2029 || n = 0x202f || n = 0x205f || n = 0x3000 || n = 0xfeff

/-- `.replace(/\s+/g, ' ')`: every maximal run of whitespace becomes one space.
The flag records whether the previous character was part of a whitespace run. -/
def collapseWsAux (prevWs : Bool) : List Char → List Char
  | [] => []
  | c :: cs =>
    if jsWs c then
      if prevWs then collapseWsAux true cs
      else ' ' :: collapseWsAux true cs
    else c :: collapseWsAux false cs

def collapseWs (l : List Char) : List Char := collapseWsAux false l

/-- `.replace(/\n{3,}/g, '\n\n')`: a maximal run of `n` newlines becomes
`min n 2` newlines when `n ≥ 3`, and is kept as-is otherwise. -/
def emitNl (n : Nat) : List Char := List.replicate (min n 2) '\n'

def collapseNlAux (pending : Nat) : List Char → List Char
  | [] => emitNl pending
  | c :: cs =>
    if c = '\n' then collapseNlAux (pending + 1) cs
    else emitNl pending ++ c :: collapseNlAux 0 cs

/-- The control characters removed by
`.replace(/[\u0000-\u001F\u007F-\u009F]/g, '')`. -/
def isCtrl (c : Char) : Bool :=
  c.toNat ≤ 0x1f || (0x7f ≤ c.toNat && c.toNat ≤ 0x9f)

def stripCtrl (l : List Char) : List Char := l.filter (fun c => !isCtrl c)

def trimEnds (l : List Char) : List Char :=
  ((l.dropWhile jsWs).reverse.dropWhile jsWs).reverse

/-- `cleanContent` from `contentExtractor.ts`: collapse whitespace runs,
collapse 3+ newline runs, strip control characters, trim. -/
def cleanContent (s : String) : String :=
  String.mk (trimEnds (stripCtrl (collapseNlAux 0 (collapseWs s.data))))

/-! ## Content extractor (`contentExtractor.ts`)

A fetched, rendered page is abstracted as a `Doc`: `q sel` is `some texts`
when the selector `sel` matches a container, where `texts` are the trimmed
texts of the paragraph/heading/list-item descendants remaining after the
unwanted-descendant strip (`script, style, nav, footer, aside, header,
.comments, .related, .sidebar, .advertisement, .ads, iframe, button, form`);
`pTexts` are the trimmed texts of all `<p>` elements of the whole document;
`title` is the already-resolved title (the title-extraction chain is not at
issue in any claim). -/

structure ExtractedContent where
  title : String
  content : String
  url : String
deriving DecidableEq

structure Doc where
  title : String
  q : String → Option (List String)
  pTexts : List String

/-- The fixed priority list `contentSelectors` from `extractArticleContent`. -/
def contentSelectors : List String :=
  ["article", "main article", ".article-content", ".post-content",
   ".entry-content", "main", "[role=\"main\"]", ".content", "#content"]

/-- Per-container processing: keep descendant texts longer than 20 characters
and join with a blank line (`textParts.join('\n\n')`). -/
def joinedOf (texts : List String) : String :=
  String.intercalate "\n\n" (texts.filter (fun t => t.length > 20))

/-- The selector loop of Strategy 1: `content` is overwritten by each matching
container's joined output and the loop breaks once `content.length > 200`. -/
def loopContent (d : Doc) : List String → String → String
  | [], cur => cur
  | sel :: rest, cur =>
    match d.q sel with
    | none => loopContent d rest cur
    | some texts =>
      let c := joinedOf texts
      if c.length > 200 then c else loopContent d rest c

/-- Strategy 2: all `<p>` texts longer than 50 characters, joined. -/
def fallbackJoined (d : Doc) : String :=
  String.intercalate "\n\n" (d.pTexts.filter (fun t => t.length > 50))

/-- Strategies 1+2 of `extractArticleContent`: run the selector loop, then
fall back when the resulting `content` is empty or shorter than 200. -/
def extractBody (d : Doc) : String :=
  let content := loopContent d contentSelectors ""
  if content.isEmpty || content.length < 200 then fallbackJoined d else content

/-- `extractArticleContent` on an already-fetched page: clean the extracted
body and reject (`return null`) when the result is empty or shorter than
100 characters. -/
def extractArticleContent (d : Doc) (url : String) : Option ExtractedContent :=
  let content := cleanContent (extractBody d)
  if content.isEmpty || content.length < 100 then none
  else some { title := d.title, content := content, url := url }

/-- `extractMultipleArticles`: per-URL extraction, null results and failures
are simply excluded (`extractArticleContent` itself catches all exceptions
and returns null, modelled by `ext` returning `none`). -/
def extractMultipleArticles (ext : String → Option ExtractedContent)
    (urls : List String) : List ExtractedContent :=
  urls.filterMap ext

/-! ### Claim-side descriptions of the layered algorithm (for C4) -/

/-- The output of the first container, in selector-priority order, whose
joined output strictly exceeds 200 characters. -/
def firstAccepted (d : Doc) : List String → Option String
  | [] => none
  | sel :: rest =>
    match d.q sel with
    | none => firstAccepted d rest
    | some texts =>
      let c := joinedOf texts
      if c.length > 200 then some c else firstAccepted d rest

/-- C4's body-selection algorithm exactly as the claim words it: accept the
first container whose joined output exceeds 200 characters; if no selector
yields more than 200 characters, fall back to the whole-document `<p>` scan. -/
def claimExtractBody (d : Doc) : String :=
  match firstAccepted d contentSelectors with
  | some c => c
  | none => fallbackJoined d

/-- The joined output of the last matching selector (the value `content`
holds after the selector loop finishes without a break), or `""` when no
selector matches. -/
def lastMatchedJoined (d : Doc) (sels : List String) : String :=
  ((sels.filterMap (fun sel => (d.q sel).map joinedOf)).getLast?).getD ""

/-- The amended C4 algorithm: as the claim, except that the fallback triggers
exactly when the content left over after the selector loop (that of the last
matching container) is shorter than 200 characters — a last container with
output of exactly 200 characters is accepted without fallback. -/
def amendedExtractBody (d : Doc) : String :=
  match firstAccepted d contentSelectors with
  | some c => c
  | none =>
    let rem := lastMatchedJoined d contentSelectors
    if rem.length < 200 then fallbackJoined d else rem

/-! ## Search provider (`googleSearch.ts`)

A search-results page is `timeout` when the results-container selector never
appeared (the inner `catch` returns `[]`), or a list of raw result elements
scanned in document order. For each element, `link` is the `href` of its
first `a[href]` (resolved by the browser), `heading` is the text of its `h3`
if present, `snippet` the text of its snippet node if present. -/

structure SearchResult where
  title : String
  url : String
  snippet : String
deriving DecidableEq

structure RawElement where
  link : Option String
  heading : Option String
  snippet : Option String
deriving DecidableEq

inductive SearchPage where
  | timeout
  | results (elements : List RawElement)

/-- The denylist `excludeDomains` from `searchGoogle`. -/
def excludeDomains : List String :=
  ["youtube.com", "facebook.com", "twitter.com", "instagram.com", "linkedin.com/posts"]

/-- Whether the character list begins with the pattern. -/
def leadsWith : List Char → List Char → Bool
  | [], _ => true
  | _ :: _, [] => false
  | p :: ps, c :: cs => p == c && leadsWith ps cs

/-- Whether the pattern occurs somewhere in the character list. -/
def hasSub (pat : List Char) : List Char → Bool
  | [] => pat.isEmpty
  | c :: cs => leadsWith pat (c :: cs) || hasSub pat cs

/-- JavaScript `s.includes(pat)`. -/
def jsIncludes (s pat : String) : Bool := hasSub pat.data s.data

/-- JavaScript `s.startsWith(pre)`. -/
def jsStartsWith (s pre : String) : Bool := leadsWith pre.data s.data

def isExcludedUrl (url : String) : Bool :=
  excludeDomains.any (fun d => jsIncludes url d)

/-- The `forEach` push loop of `page.evaluate`: keep an element only when it
has an anchor with href, an `h3`, an href starting with `http`, and a URL not
containing any denylisted domain. -/
def collectResults : List RawElement → List SearchResult
  | [] => []
  | e :: rest =>
    match e.link, e.heading with
    | some url, some t =>
      if jsStartsWith url "http" then
        if isExcludedUrl url then collectResults rest
        else { title := t, url := url, snippet := e.snippet.getD "" } :: collectResults rest
      else collectResults rest
    | _, _ => collectResults rest

/-- `searchGoogle`: empty list on selector timeout, otherwise the collected
results truncated to the top `numResults` (`results.slice(0, numResults)`). -/
def searchGoogle : SearchPage → Nat → List SearchResult
  | .timeout, _ => []
  | .results es, numResults => (collectResults es).take numResults

/-- Claim-side per-element admission rule for C6. -/
def keepElement (e : RawElement) : Option SearchResult :=
  match e.link, e.heading with
  | some url, some t =>
    if jsStartsWith url "http" && !isExcludedUrl url then
      some { title := t, url := url, snippet := e.snippet.getD "" }
    else none
  | _, _ => none

/-! ## Scrape orchestrator link collection (`scraper.ts`, lines 46–64)

The anchors matched by
`$('a[href*="/blog"], a[href*="/article"], article a, .blog-post a, .post a')`
are given in document order as their `href` attributes (`none` when the
attribute is absent). WHATWG URL resolution (`new URL(href, blogUrl).href`)
is an external library; it is passed in as an opaque `resolve` function. -/

/-- The href-collection loop: a href is skipped when falsy (`undefined` or
`""`) or when the raw href string already occurs in the accumulated list;
otherwise the href — resolved against the blog URL when it does not start
with `http` — is appended. Note the membership test compares the *raw* href
against the list of *resolved* URLs. -/
def collectLinks (resolve : String → String) : List (Option String) → List String → List String
  | [], acc => acc
  | h? :: rest, acc =>
    match h? with
    | none => collectLinks resolve rest acc
    | some h =>
      if h ≠ "" ∧ h ∉ acc then
        collectLinks resolve rest (acc ++ [if jsStartsWith h "http" then h else resolve h])
      else collectLinks resolve rest acc

/-- `articleLinks.slice(-5)`: the last 5 collected links (the whole list when
fewer than 5 were collected). -/
def articlesToScrape (resolve : String → String) (hrefs : List (Option String)) : List String :=
  let links := collectLinks resolve hrefs []
  links.drop (links.length - 5)

/-! ## Article rewriter (`llmService.ts`)

A thrown JavaScript error is modelled by its observable fields: the optional
`status` and the `message`; the code treats an error as a rate-limit signal
when `error.status === 429 || error.message?.includes('429')`. -/

structure JsError where
  status : Option Nat
  message : String
deriving DecidableEq

def isRateLimit429 (e : JsError) : Bool :=
  e.status == some 429 || jsIncludes e.message "429"

structure RewriteResult where
  updatedContent : String
  references : List String
deriving DecidableEq

/-- The reference block of the prompt: each reference document's title, URL
and content truncated to its first 2000 characters, joined by `\n---\n\n`. -/
def referencesText (refs : List ExtractedContent) : String :=
  String.intercalate "\n---\n\n"
    (refs.enum.map (fun p =>
      "Reference Article " ++ toString (p.1 + 1) ++ ": " ++ p.2.title ++
      "\nURL: " ++ p.2.url ++ "\n\nContent:\n" ++ p.2.content.take 2000 ++ "...\n"))

/-- The single prompt built by `rewriteArticle`. -/
def buildPrompt (originalTitle originalContent : String) (refs : List ExtractedContent) : String :=
  "You are an expert content writer and editor. Your task is to rewrite and improve the following article based on the style, formatting, and content approach of the reference articles provided.\n\nORIGINAL ARTICLE:\nTitle: " ++
  originalTitle ++ "\nContent:\n" ++ originalContent ++
  "\n\n---\n\nREFERENCE ARTICLES (Top-ranking articles on Google for this topic):\n" ++
  referencesText refs ++
  "\n\n---\n\nINSTRUCTIONS:\n1. Analyze the formatting, structure, and writing style of the reference articles\n2. Rewrite the original article to match the quality and style of the reference articles\n3. Improve the content while maintaining the core message and facts\n4. Use similar heading structures, paragraph lengths, and formatting patterns\n5. Make the content more engaging and SEO-friendly\n6. Keep the rewritten content comprehensive and well-structured\n7. Do NOT include any meta-commentary or explanations - only output the rewritten article\n8. Do NOT add a \"References\" section at the end. The references will be displayed separately by the system.\n9. Ensure the content flows naturally and is not just a list of summaries.\n\nOUTPUT FORMAT:\nReturn ONLY the rewritten article content in markdown format. DO NOT include a \"References\" section."

/-- An LLM environment: which backends are configured (`OPENAI_API_KEY`,
`GEMINI_API_KEY`) and what each backend returns. The Gemini backend's
behaviour is indexed by the number of `generateContent` calls already made,
so that a mock can rate-limit some attempts and succeed on a later one. -/
structure LlmEnv where
  hasOpenAI : Bool
  hasGemini : Bool
  openaiGenerate : String → Except JsError String
  geminiGenerate : String → Nat → Except JsError String

/-- The Gemini retry loop (`while attempts < maxAttempts`), instrumented with
the number of `generateContent` calls made and the list of cooldown sleeps
(in milliseconds) performed. The loop is driven by the remaining attempt
budget `maxAttempts - attempts`. On a successful call the loop breaks with
the generated text; a caught rate-limit error sleeps 65000 ms and retries;
any other caught error is rethrown; leaving the loop without a successful
call yields the initial `""`. -/
def geminiLoopAux (gen : Nat → Except JsError String) :
    Nat → Nat → List Nat → Except JsError (String × Nat × List Nat)
  | 0, calls, sleeps => .ok ("", calls, sleeps)
  | remaining + 1, calls, sleeps =>
    match gen calls with
    | .ok s => .ok (s, calls + 1, sleeps)
    | .error e =>
      if isRateLimit429 e then
        geminiLoopAux gen remaining (calls + 1) (sleeps ++ [65000])
      else .error e

inductive RewriteError where
  /-- `Neither OPENAI_API_KEY nor GEMINI_API_KEY is set in environment variables` -/
  | noBackend
  /-- a backend error rethrown by the catch handlers -/
  | llm (e : JsError)
  /-- `Failed to generate content after 5 attempts due to rate limits.` -/
  | exhausted
  /-- `LLM returned empty content` -/
  | empty
deriving DecidableEq

/-- The observable outcome of a successful `rewriteArticle` call, with the
backend-call and cooldown instrumentation carried along. -/
structure RewriteTrace where
  result : RewriteResult
  llmCalls : Nat
  sleepsMs : List Nat
deriving DecidableEq

/-- `rewriteArticle`: fail when no backend is configured; prefer OpenAI when
available; otherwise run the Gemini retry loop with `maxAttempts = 5`; an
empty `updatedContent` after the Gemini loop raises the rate-limit-exhausted
error, and an empty OpenAI generation raises `LLM returned empty content`;
`references` is always the input reference documents' URLs in order. -/
def rewriteArticle (env : LlmEnv) (originalTitle originalContent : String)
    (referenceArticles : List ExtractedContent) : Except RewriteError RewriteTrace :=
  if !env.hasOpenAI && !env.hasGemini then .error .noBackend
  else
    let prompt := buildPrompt originalTitle originalContent referenceArticles
    if env.hasOpenAI then
      match env.openaiGenerate prompt with
      | .error e => .error (.llm e)
      | .ok c =>
        if c.isEmpty then .error .empty
        else .ok { result := { updatedContent := c, references := referenceArticles.map (fun r => r.url) },
                   llmCalls := 1, sleepsMs := [] }
    else
      match geminiLoopAux (env.geminiGenerate prompt) 5 0 [] with
      | .error e => .error (.llm e)
      | .ok (c, calls, sleeps) =>
        if c.isEmpty then .error .exhausted
        else .ok { result := { updatedContent := c, references := referenceArticles.map (fun r => r.url) },
                   llmCalls := calls, sleepsMs := sleeps }

/-! ## The article store and the controller (`articleController.ts`)

The Prisma store is a list of `Article` records in creation order;
`findUnique` is `find?`, `update` replaces the record with the matching id. -/

structure Article where
  id : Nat
  title : String
  content : String
  author : Option String
  publishedDate : Option Nat
  originalUrl : String
  isUpdated : Bool
  updatedContent : Option String
  references : List String
deriving DecidableEq

/-- A fresh opaque id, distinct from every id already in the store. -/
def freshId (store : List Article) : Nat :=
  (store.map (fun a => a.id)).foldr max 0 + 1

structure CreateBody where
  title : String
  content : String
  author : Option String
  publishedDate : Option Nat
  originalUrl : String
deriving DecidableEq

/-- `createArticle` (`POST /articles`, validation already passed): reject with
HTTP 409 when a record with the same `originalUrl` exists, otherwise append
a new record. -/
def createArticle (store : List Article) (body : CreateBody) :
    Except (Nat × String) (List Article × Article) :=
  match store.find? (fun a => a.originalUrl == body.originalUrl) with
  | some _ => .error (409, "Article with this URL already exists")
  | none =>
    let a : Article :=
      { id := freshId store, title := body.title, content := body.content,
        author := body.author, publishedDate := body.publishedDate,
        originalUrl := body.originalUrl, isUpdated := false,
        updatedContent := none, references := [] }
    .ok (store ++ [a], a)

/-- The request body of `PUT /articles/:id`; `none` means the field is absent
(`undefined`). -/
structure UpdateBody where
  title : Option String
  content : Option String
  author : Option String
  publishedDate : Option Nat
  isUpdated : Option Bool
  updatedContent : Option String
  references : Option (List String)
deriving DecidableEq

/-- Whether a JavaScript value modelled as `Option String` is truthy
(present and not the empty string). -/
def truthyStr : Option String → Bool
  | some s => !s.isEmpty
  | none => false

/-- The `prisma.article.update` data object built by `updateArticle`: the
string fields are spread only when truthy, `isUpdated` whenever the field is
present (`isUpdated !== undefined` — so an explicit `false` is applied),
`references` whenever present (an array is always truthy). -/
def applyUpdateBody (a : Article) (b : UpdateBody) : Article :=
  { a with
    title := if truthyStr b.title then b.title.getD a.title else a.title
    content := if truthyStr b.content then b.content.getD a.content else a.content
    author := if truthyStr b.author then b.author else a.author
    publishedDate := match b.publishedDate with
      | some d => some d
      | none => a.publishedDate
    isUpdated := b.isUpdated.getD a.isUpdated
    updatedContent := if truthyStr b.updatedContent then b.updatedContent else a.updatedContent
    references := b.references.getD a.references }

/-- `updateArticle` (`PUT /articles/:id`): 404 when the id is unknown,
otherwise replace the stored record with the partially-updated one. -/
def updateArticle (store : List Article) (id : Nat) (b : UpdateBody) :
    Except (Nat × String) (List Article × Article) :=
  match store.find? (fun a => a.id == id) with
  | none => .error (404, "Article not found")
  | some a =>
    let u := applyUpdateBody a b
    .ok (store.map (fun c => if c.id == id then u else c), u)

/-- A structured article record produced by the scraper. -/
structure ScrapedArticle where
  title : String
  content : String
  author : Option String
  publishedDate : Option Nat
  originalUrl : String
deriving DecidableEq

def articleOfScraped (id : Nat) (s : ScrapedArticle) : Article :=
  { id := id, title := s.title, content := s.content, author := s.author,
    publishedDate := s.publishedDate, originalUrl := s.originalUrl,
    isUpdated := false, updatedContent := none, references := [] }

/-- The persistence loop of `scrapeArticles` (`POST /articles/scrape`): each
scraped article is looked up by `originalUrl` and silently skipped when a
record already exists, otherwise created. Returns the new store and the
number of saved articles. -/
def scrapePersist (store : List Article) : List ScrapedArticle → List Article × Nat
  | [] => (store, 0)
  | s :: rest =>
    match store.find? (fun a => a.originalUrl == s.originalUrl) with
    | some _ => scrapePersist store rest
    | none =>
      let r := scrapePersist (store ++ [articleOfScraped (freshId store) s]) rest
      (r.1, r.2 + 1)

/-! ## Enhancement orchestrator (`enhanceArticles` and the update script)

The external world of one enhancement run: `fetchSearch` is the browser
session behind `searchGoogle` (an `Except.error` is an unexpected browser
error rethrown by its outer catch; `.ok page` is the loaded results page),
`fetchDoc` is the browser session behind `extractArticleContent` (`none`
when navigation fails, making the extractor return null), and `llm` is the
configured LLM backend pair. -/

structure PipeEnv where
  fetchSearch : String → Except JsError SearchPage
  fetchDoc : String → Option Doc
  llm : LlmEnv

inductive PipeError where
  | search (e : JsError)
  | rewrite (e : RewriteError)
deriving DecidableEq

/-- One article's extraction step inside the pipeline. -/
def pipeExtract (env : PipeEnv) (url : String) : Option ExtractedContent :=
  (env.fetchDoc url).bind (fun d => extractArticleContent d url)

/-- The per-article body of the `enhanceArticles` loop: search the title for
2 results; when results exist, extract the reference articles, otherwise
proceed with an empty reference set; rewrite; and only then build the
updated record `{isUpdated: true, updatedContent, references}`. Any error
short-circuits before the record is built. -/
def enhanceStep (env : PipeEnv) (a : Article) : Except PipeError Article :=
  match env.fetchSearch a.title with
  | .error e => .error (.search e)
  | .ok page =>
    let searchResults := searchGoogle page 2
    let referenceArticles :=
      if searchResults.length > 0 then
        extractMultipleArticles (pipeExtract env) (searchResults.map (fun r => r.url))
      else []
    match rewriteArticle env.llm a.title a.content referenceArticles with
    | .error e => .error (.rewrite e)
    | .ok tr =>
      .ok { a with isUpdated := true,
                   updatedContent := some tr.result.updatedContent,
                   references := tr.result.references }

/-- The aggregate result of a batch run: the store after the run, the
success and failure tallies, and the successfully updated records in
processing order. -/
structure BatchResult where
  store : List Article
  success : Nat
  failure : Nat
  enhanced : List Article
deriving DecidableEq

/-- The sequential batch loop: a successful step persists the updated record
by id (`prisma.article.update`) and counts a success; a caught exception
counts a failure and leaves the store untouched, and the loop continues with
the remaining articles. -/
def runBatch (env : PipeEnv) : List Article → List Article → BatchResult
  | [], st => { store := st, success := 0, failure := 0, enhanced := [] }
  | a :: todo, st =>
    match enhanceStep env a with
    | .ok u =>
      let r := runBatch env todo (st.map (fun b => if b.id == a.id then u else b))
      { r with success := r.success + 1, enhanced := u :: r.enhanced }
    | .error _ =>
      let r := runBatch env todo st
      { r with failure := r.failure + 1 }

/-- The batch the run selects: up to 5 articles with `isUpdated = false`
(`findMany({where: {isUpdated: false}, take: 5})`, store order). -/
def selectBatch (store : List Article) : List Article :=
  (store.filter (fun a => a.isUpdated == false)).take 5

/-- `enhanceArticles` (`POST /articles/enhance`). -/
def enhanceArticles (env : PipeEnv) (store : List Article) : BatchResult :=
  runBatch env (selectBatch store) store

/-- The outcome of one iteration of the standalone update script's loop
(`src/scripts` Phase 2 `main`). -/
inductive ScriptOutcome where
  | failed
  | updated (a : Article)
deriving DecidableEq

/-- The per-article body of the standalone update script: unlike the
controller, it counts a failure and skips the article when the search
returns zero results, and again when no reference article could be
extracted; only otherwise does it rewrite and persist. -/
def scriptStep (env : PipeEnv) (a : Article) : ScriptOutcome :=
  match env.fetchSearch a.title with
  | .error _ => .failed
  | .ok page =>
    let searchResults := searchGoogle page 2
    if searchResults.length == 0 then .failed
    else
      let referenceArticles :=
        extractMultipleArticles (pipeExtract env) (searchResults.map (fun r => r.url))
      if referenceArticles.length == 0 then .failed
      else
        match rewriteArticle env.llm a.title a.content referenceArticles with
        | .error _ => .failed
        | .ok tr =>
          .updated { a with isUpdated := true,
                            updatedContent := some tr.result.updatedContent,
                            references := tr.result.references }


/-! ## Proof-layer definitions and concrete fixtures

Helper functions used by the batch-run lemmas, and the concrete stores,
pages and backend environments the witness theorems evaluate. -/

/-- What one loop iteration for article `a` does to a store record `c`
carrying the same id: replaced by the updated record on success, untouched
on failure. -/
def stepApply (env : PipeEnv) (a c : Article) : Article :=
  match enhanceStep env a with
  | .ok u => u
  | .error _ => c

/-- The effect of the whole batch loop on one store record, iterating the
per-iteration update in batch order. -/
def applyAll (env : PipeEnv) (todo : List Article) (b : Article) : Article :=
  todo.foldl (fun c a => if c.id == a.id then stepApply env a c else c) b

/-- Whether the per-article step succeeds. -/
def stepOk (env : PipeEnv) (a : Article) : Bool :=
  match enhanceStep env a with
  | .ok _ => true
  | .error _ => false

/-- A document whose only matching container joins to exactly 200 characters
while the whole document holds one 60-character paragraph: the boundary case
separating the claim's fallback condition from the code's. -/
def dBoundary : Doc :=
  { title := "t"
    q := fun sel => if sel = "article" then some [String.mk (List.replicate 200 'a')] else none
    pTexts := [String.mk (List.replicate 60 'b')] }

/-- A page with no matching container and a single 99-character paragraph. -/
def d99 : Doc :=
  { title := "t", q := fun _ => none, pTexts := [String.mk (List.replicate 99 'a')] }

/-- A page with no matching container and a single 100-character paragraph. -/
def d100 : Doc :=
  { title := "t", q := fun _ => none, pTexts := [String.mk (List.replicate 100 'a')] }

/-- Five raw result elements: a qualifying one, one without an anchor, a
denylisted one, another qualifying one, and one with a non-http URL. -/
def esW : List RawElement :=
  [{ link := some "https://a.com/x", heading := some "A", snippet := some "s" },
   { link := none, heading := some "B", snippet := none },
   { link := some "https://youtube.com/watch", heading := some "C", snippet := none },
   { link := some "https://b.com/y", heading := some "D", snippet := none },
   { link := some "ftp://c.com", heading := some "E", snippet := none }]

/-- A URL resolver behaving like `new URL(href, blogUrl).href` on the one
relative href used below. -/
def resolveW : String → String := fun _ => "https://beyondchats.com/a"

/-- Four anchors: two distinct absolute blog links, an anchor without href,
and a repeat of the first absolute link. -/
def hrefsW : List (Option String) :=
  [some "https://x.com/blog/1", some "https://x.com/blog/2", none, some "https://x.com/blog/1"]

/-- A rate-limit error as the Gemini client raises it. -/
def rl429 : JsError := { status := some 429, message := "Resource has been exhausted" }

/-- A Gemini-only environment whose backend rate-limits every call. -/
def envGeminiAlways : LlmEnv :=
  { hasOpenAI := false, hasGemini := true,
    openaiGenerate := fun _ => .error { status := none, message := "unused" },
    geminiGenerate := fun _ _ => .error rl429 }

/-- A Gemini-only environment whose backend rate-limits the first 4 calls
and succeeds on the 5th. -/
def envGemini4 : LlmEnv :=
  { hasOpenAI := false, hasGemini := true,
    openaiGenerate := fun _ => .error { status := none, message := "unused" },
    geminiGenerate := fun _ k => if k < 4 then .error rl429 else .ok "rewritten" }

/-- A Gemini-only environment whose backend rate-limits twice, then fails
with a non-rate-limit server error. -/
def envGeminiBoom : LlmEnv :=
  { hasOpenAI := false, hasGemini := true,
    openaiGenerate := fun _ => .error { status := none, message := "unused" },
    geminiGenerate := fun _ k =>
      if k = 2 then .error { status := some 500, message := "internal error" }
      else .error rl429 }

/-- An OpenAI-only environment whose backend returns `"hello"`. -/
def envOpenAI : LlmEnv :=
  { hasOpenAI := true, hasGemini := false,
    openaiGenerate := fun _ => .ok "hello",
    geminiGenerate := fun _ _ => .error rl429 }

/-- An environment with neither backend configured. -/
def envNoKeys : LlmEnv :=
  { hasOpenAI := false, hasGemini := false,
    openaiGenerate := fun _ => .error { status := none, message := "unused" },
    geminiGenerate := fun _ _ => .error { status := none, message := "unused" } }

/-- An OpenAI-only environment whose backend returns empty text. -/
def envEmptyGen : LlmEnv :=
  { hasOpenAI := true, hasGemini := false,
    openaiGenerate := fun _ => .ok "",
    geminiGenerate := fun _ _ => .error rl429 }

/-- A pipeline environment: searches time out, extraction pages unreachable,
OpenAI backend returns `"hello"`. -/
def envPipeW : PipeEnv :=
  { fetchSearch := fun _ => .ok SearchPage.timeout,
    fetchDoc := fun _ => none,
    llm := envOpenAI }

def mkArt (i : Nat) (t c u : String) : Article :=
  { id := i, title := t, content := c, author := none, publishedDate := none,
    originalUrl := u, isUpdated := false, updatedContent := none, references := [] }

def artW : Article :=
  { id := 7, title := "T", content := "C", author := none, publishedDate := none,
    originalUrl := "u", isUpdated := false, updatedContent := none, references := [] }

/-- The record the per-article step persists for `artW` under `envPipeW`. -/
def artWupd : Article :=
  { artW with isUpdated := true, updatedContent := some "hello", references := [] }

/-- Five un-enhanced articles, all ids and URLs distinct. -/
def storeW : List Article :=
  [mkArt 1 "A" "ca" "u1", mkArt 2 "B" "cb" "u2", mkArt 3 "C" "cc" "u3",
   mkArt 4 "D" "cd" "u4", mkArt 5 "E" "ce" "u5"]

/-- A pipeline environment in which processing article `"C"` (the third of
the batch) throws — its browser session crashes — while every other article
sails through with a working OpenAI backend. -/
def envW : PipeEnv :=
  { fetchSearch := fun t =>
      if t = "C" then .error { status := none, message := "browser crash" }
      else .ok SearchPage.timeout
    fetchDoc := fun _ => none
    llm := envOpenAI }

/-- An already-enhanced article. -/
def artTrue : Article :=
  { id := 9, title := "T9", content := "C9", author := none, publishedDate := none,
    originalUrl := "u9", isUpdated := true, updatedContent := some "done", references := ["r"] }

/-- A `PUT /articles/:id` body that explicitly carries `isUpdated: false`
and nothing else. -/
def bodyReset : UpdateBody :=
  { title := none, content := none, author := none, publishedDate := none,
    isUpdated := some false, updatedContent := none, references := none }

/-- A store holding one already-enhanced article and one fresh article. -/
def storeM : List Article :=
  [artTrue, mkArt 2 "B" "cb" "u2"]

def bodyW : CreateBody :=
  { title := "T", content := "C", author := none, publishedDate := none, originalUrl := "u1" }

/-- Three scraped articles: a duplicate of a stored URL, a new URL, and a
repeat of that new URL within the same scrape run. -/
def scrapedW : List ScrapedArticle :=
  [{ title := "S1", content := "c1", author := none, publishedDate := none, originalUrl := "u1" },
   { title := "S2", content := "c2", author := none, publishedDate := none, originalUrl := "u9" },
   { title := "S3", content := "c3", author := none, publishedDate := none, originalUrl := "u9" }]

/-- The rewrite trace produced by `envPipeW` on a degraded-mode article. -/
def trHello : RewriteTrace :=
  { result := { updatedContent := "hello", references := [] }, llmCalls := 1, sleepsMs := [] }
end BeyondChats




namespace BeyondChats

instance {ε α : Type} [DecidableEq ε] [DecidableEq α] : DecidableEq (Except ε α) := fun
  | .ok a, .ok b => if h : a = b then .isTrue (by rw [h]) else .isFalse (by simp [h])
  | .error a, .error b => if h : a = b then .isTrue (by rw [h]) else .isFalse (by simp [h])
  | .ok _, .error _ => .isFalse (by simp)
  | .error _, .ok _ => .isFalse (by simp)

/-! ## Helper lemmas -/

theorem isEmpty_false_of_length_pos (s : String) (h : 0 < s.length) : s.isEmpty = false := by
  cases hemp : s.isEmpty
  · rfl
  · exfalso
    have hs : s = "" := (String.isEmpty_iff s).mp hemp
    rw [hs] at h
    simp at h

theorem getLast?_getD_cons (c cur : String) (l : List String) :
    ((c :: l).getLast?).getD cur = (l.getLast?).getD c := by
  cases l with
  | nil => rfl
  | cons x xs =>
    rw [List.getLast?_cons_cons]
    cases h : (x :: xs).getLast? with
    | none => simp at h
    | some y => rfl

theorem firstAccepted_length (d : Doc) :
    ∀ (sels : List String) (c : String), firstAccepted d sels = some c → 200 < c.length := by
  intro sels
  induction sels with
  | nil => intro c h; simp [firstAccepted] at h
  | cons sel rest ih =>
    intro c h
    cases hq : d.q sel with
    | none =>
      simp only [firstAccepted, hq] at h
      exact ih c h
    | some texts =>
      simp only [firstAccepted, hq] at h
      by_cases hl : (joinedOf texts).length > 200
      · rw [if_pos hl] at h
        cases h
        exact hl
      · rw [if_neg hl] at h
        exact ih c h

theorem loopContent_eq (d : Doc) :
    ∀ (sels : List String) (cur : String),
      loopContent d sels cur =
        (firstAccepted d sels).getD
          (((sels.filterMap (fun sel => (d.q sel).map joinedOf)).getLast?).getD cur) := by
  intro sels
  induction sels with
  | nil => intro cur; rfl
  | cons sel rest ih =>
    intro cur
    cases hq : d.q sel with
    | none =>
      simp only [loopContent, firstAccepted, List.filterMap_cons, hq, Option.map_none]
      exact ih cur
    | some texts =>
      simp only [loopContent, firstAccepted, List.filterMap_cons, hq, Option.map_some]
      by_cases hl : (joinedOf texts).length > 200
      · rw [if_pos hl, if_pos hl]
        rfl
      · rw [if_neg hl, if_neg hl]
        rw [ih (joinedOf texts)]
        cases hfa : firstAccepted d rest with
        | some c => rfl
        | none =>
          simp only [Option.getD_none]
          exact (getLast?_getD_cons (joinedOf texts) cur
            (rest.filterMap (fun sel => (d.q sel).map joinedOf))).symm

end BeyondChats
namespace BeyondChats

/-! ## C4 — the layered body-text selection algorithm -/

/-- C4, counterexample: the claim says the fallback runs whenever no selector
yields more than 200 characters, but on a page whose only (hence last)
matching container joins to exactly 200 characters the code keeps those 200
characters and never falls back, while the claim's algorithm falls back to
the 60-character paragraph. -/
theorem extractBody_fallback_cex : claimExtractBody dBoundary ≠ extractBody dBoundary := by
  decide

/-- C4 (amended): the extractor iterates the fixed selector priority list in
order, joining each matching container's descendant texts longer than 20
characters with blank lines, and stops at the first container whose joined
output exceeds 200 characters; if no container's output exceeds 200
characters, it falls back to the whole-document paragraph scan exactly when
the content remaining from the selector loop (the last matching container's
joined output, or empty) is shorter than 200 characters. -/
theorem extractBody_layered_amended : ∀ d : Doc, extractBody d = amendedExtractBody d := by
  intro d
  unfold extractBody amendedExtractBody lastMatchedJoined
  rw [loopContent_eq]
  cases hfa : firstAccepted d contentSelectors with
  | some c =>
    have hc := firstAccepted_length d contentSelectors c hfa
    simp only [Option.getD_some]
    have hne : c.isEmpty = false := isEmpty_false_of_length_pos c (by omega)
    have hcond : (c.isEmpty || decide (c.length < 200)) = false := by
      rw [hne, decide_eq_false (by omega)]
      rfl
    rw [if_neg (by rw [hcond]; exact Bool.false_ne_true)]
  | none =>
    simp only [Option.getD_none]
    set X := ((contentSelectors.filterMap (fun sel => (d.q sel).map joinedOf)).getLast?).getD ""
      with hX
    by_cases h : X.length < 200
    · have hcond : (X.isEmpty || decide (X.length < 200)) = true := by
        rw [decide_eq_true h, Bool.or_true]
      rw [if_pos hcond, if_pos h]
    · have hne : X.isEmpty = false := isEmpty_false_of_length_pos X (by omega)
      have hcond : (X.isEmpty || decide (X.length < 200)) = false := by
        rw [hne, decide_eq_false h]
        rfl
      rw [if_neg (by rw [hcond]; exact Bool.false_ne_true), if_neg h]

end BeyondChats
namespace BeyondChats

/-! ## C5 — the 100-character rejection threshold -/

/-- C5: for every fetched page, `extractArticleContent` returns null exactly
when the cleaned (whitespace-collapsed, control-stripped, trimmed) content is
shorter than 100 characters; in particular a cleaned content of exactly 99
characters yields null and one of exactly 100 characters yields the non-null
record carrying that content. -/
theorem extractArticleContent_length_threshold :
    ∀ (d : Doc) (url : String),
      (extractArticleContent d url = none ↔ (cleanContent (extractBody d)).length < 100)
      ∧ ((cleanContent (extractBody d)).length = 99 → extractArticleContent d url = none)
      ∧ ((cleanContent (extractBody d)).length = 100 →
          extractArticleContent d url =
            some { title := d.title, content := cleanContent (extractBody d), url := url }) := by
  intro d url
  unfold extractArticleContent
  set c := cleanContent (extractBody d) with hc
  have main : (if c.isEmpty || decide (c.length < 100) then (none : Option ExtractedContent)
      else some { title := d.title, content := c, url := url }) = none ↔ c.length < 100 := by
    by_cases h : c.length < 100
    · have hcond : (c.isEmpty || decide (c.length < 100)) = true := by
        rw [decide_eq_true h, Bool.or_true]
      rw [if_pos hcond]
      simp [h]
    · have hne : c.isEmpty = false := isEmpty_false_of_length_pos c (by omega)
      have hcond : (c.isEmpty || decide (c.length < 100)) = false := by
        rw [hne, decide_eq_false h]
        rfl
      rw [if_neg (by rw [hcond]; exact Bool.false_ne_true)]
      simp [h]
  refine ⟨main, fun h99 => main.mpr (by omega), fun h100 => ?_⟩
  have hne : c.isEmpty = false := isEmpty_false_of_length_pos c (by omega)
  have hcond : (c.isEmpty || decide (c.length < 100)) = false := by
    rw [hne, decide_eq_false (by omega)]
    rfl
  rw [if_neg (by rw [hcond]; exact Bool.false_ne_true)]

/-- C5 witness: on `d99` the cleaned content has exactly 99 characters and
extraction returns null; on `d100` it has exactly 100 and extraction returns
the record. -/
theorem extractArticleContent_length_threshold_witness :
    extractArticleContent d99 "u" = none
    ∧ extractArticleContent d100 "u" =
        some { title := d100.title, content := cleanContent (extractBody d100), url := "u" } :=
  ⟨(extractArticleContent_length_threshold d99 "u").2.1 (by decide),
   (extractArticleContent_length_threshold d100 "u").2.2 (by decide)⟩

end BeyondChats
namespace BeyondChats

/-! ## C6 — the search provider contract -/

theorem keepElement_some {e : RawElement} {r : SearchResult} (h : keepElement e = some r) :
    e.link = some r.url ∧ e.heading = some r.title ∧ jsStartsWith r.url "http" = true ∧
    isExcludedUrl r.url = false := by
  obtain ⟨link, heading, snip⟩ := e
  cases link with
  | none => simp [keepElement] at h
  | some url =>
    cases heading with
    | none => simp [keepElement] at h
    | some t =>
      simp only [keepElement] at h
      by_cases hc : (jsStartsWith url "http" && !isExcludedUrl url) = true
      · rw [if_pos hc] at h
        obtain ⟨ha, hb⟩ := Bool.and_eq_true _ _ |>.mp hc
        cases h
        exact ⟨rfl, rfl, ha, by simpa using hb⟩
      · rw [if_neg hc] at h
        cases h

theorem collectResults_eq_filterMap : ∀ es : List RawElement,
    collectResults es = es.filterMap keepElement := by
  intro es
  induction es with
  | nil => rfl
  | cons e rest ih =>
    rw [List.filterMap_cons]
    obtain ⟨link, heading, snip⟩ := e
    cases link with
    | none => simp [collectResults, keepElement, ih]
    | some url =>
      cases heading with
      | none => simp [collectResults, keepElement, ih]
      | some t =>
        cases hs : jsStartsWith url "http" with
        | false => simp [collectResults, keepElement, hs, ih]
        | true =>
          cases hx : isExcludedUrl url with
          | true => simp [collectResults, keepElement, hs, hx, ih]
          | false => simp [collectResults, keepElement, hs, hx, ih]

/-- C6: `searchGoogle` returns the empty list on a results-selector timeout
rather than failing; on a results page it returns exactly the document-order
admissions (`keepElement`) truncated to `maxResults`, hence at most
`maxResults` results, in document order (a sublist of the admitted list),
and every returned result comes from an element having an anchor link and a
heading, with a URL starting with `http` and not containing any denylisted
non-article domain. -/
theorem searchGoogle_contract :
    ∀ (es : List RawElement) (maxResults : Nat),
      searchGoogle SearchPage.timeout maxResults = []
      ∧ searchGoogle (SearchPage.results es) maxResults = (es.filterMap keepElement).take maxResults
      ∧ (searchGoogle (SearchPage.results es) maxResults).length ≤ maxResults
      ∧ List.Sublist (searchGoogle (SearchPage.results es) maxResults) (es.filterMap keepElement)
      ∧ ∀ r ∈ searchGoogle (SearchPage.results es) maxResults,
          ∃ e ∈ es, e.link = some r.url ∧ e.heading = some r.title ∧
            jsStartsWith r.url "http" = true ∧ isExcludedUrl r.url = false := by
  intro es n
  have h2 : searchGoogle (SearchPage.results es) n = (es.filterMap keepElement).take n := by
    show (collectResults es).take n = (es.filterMap keepElement).take n
    rw [collectResults_eq_filterMap]
  refine ⟨rfl, h2, ?_, ?_, ?_⟩
  · rw [h2, List.length_take]
    exact Nat.min_le_left n _
  · rw [h2]
    exact List.take_sublist n _
  · intro r hr
    rw [h2] at hr
    obtain ⟨e, he, hk⟩ := List.mem_filterMap.mp (List.mem_of_mem_take hr)
    obtain ⟨k1, k2, k3, k4⟩ := keepElement_some hk
    exact ⟨e, he, k1, k2, k3, k4⟩

/-- C6 witness: on `esW` with `maxResults = 2` the provider returns exactly
the two qualifying results in document order, and the first returned result
is certified by the contract. -/
theorem searchGoogle_contract_witness :
    searchGoogle (SearchPage.results esW) 2 =
      [{ title := "A", url := "https://a.com/x", snippet := "s" },
       { title := "D", url := "https://b.com/y", snippet := "" }]
    ∧ ∃ e ∈ esW, e.link = some "https://a.com/x" ∧ e.heading = some "A" ∧
        jsStartsWith "https://a.com/x" "http" = true ∧ isExcludedUrl "https://a.com/x" = false := by
  constructor
  · decide
  · exact (searchGoogle_contract esW 2).2.2.2.2
      { title := "A", url := "https://a.com/x", snippet := "s" } (by decide)

end BeyondChats
namespace BeyondChats

/-! ## C7 — link de-duplication and last-5 selection in the scraper -/

theorem collectLinks_nodup_of_absolute (resolve : String → String) :
    ∀ (hrefs : List (Option String)) (acc : List String),
      (∀ h, some h ∈ hrefs → jsStartsWith h "http" = true) → acc.Nodup →
      (collectLinks resolve hrefs acc).Nodup := by
  intro hrefs
  induction hrefs with
  | nil => intro acc _ hacc; exact hacc
  | cons h? rest ih =>
    intro acc habs hacc
    cases h? with
    | none => exact ih acc (fun h hm => habs h (List.mem_cons_of_mem _ hm)) hacc
    | some h =>
      have hstart : jsStartsWith h "http" = true := habs h (List.mem_cons_self _ _)
      show (if h ≠ "" ∧ h ∉ acc then
          collectLinks resolve rest (acc ++ [if jsStartsWith h "http" then h else resolve h])
        else collectLinks resolve rest acc).Nodup
      by_cases hcond : h ≠ "" ∧ h ∉ acc
      · rw [if_pos hcond]
        have hpush : (if jsStartsWith h "http" then h else resolve h) = h := by
          rw [hstart]
          rfl
        rw [hpush]
        refine ih (acc ++ [h]) (fun g hg => habs g (List.mem_cons_of_mem _ hg)) ?_
        simp [List.nodup_append, hacc, hcond.2]
      · rw [if_neg hcond]
        exact ih acc (fun g hg => habs g (List.mem_cons_of_mem _ hg)) hacc

/-- C7, counterexample: the claim says discovered links are de-duplicated by
resolved URL, but the code tests the raw href against the list of already
resolved URLs, so an index page carrying the same relative href twice
produces the same resolved URL twice. -/
theorem collectLinks_dedup_cex :
    ¬ (collectLinks resolveW [some "/a", some "/a"] []).Nodup := by
  decide

/-- C7 (amended): the href-collection loop skips an anchor only when its raw
href already occurs in the accumulated resolved-URL list — so when every
collected href is already absolute (starts with `http`) the collected list is
duplicate-free, but repeated relative hrefs are re-added — and the scraper
then selects exactly the last 5 entries of the collected list (a suffix of
length `min 5 n`; the count 5 is fixed in the code, not configurable). -/
theorem collectLinks_selection_amended :
    ∀ (resolve : String → String) (hrefs : List (Option String)),
      ((∀ h, some h ∈ hrefs → jsStartsWith h "http" = true) →
        (collectLinks resolve hrefs []).Nodup)
      ∧ (∃ pre, collectLinks resolve hrefs [] = pre ++ articlesToScrape resolve hrefs)
      ∧ (articlesToScrape resolve hrefs).length = min 5 (collectLinks resolve hrefs []).length := by
  intro resolve hrefs
  refine ⟨fun habs => collectLinks_nodup_of_absolute resolve hrefs [] habs List.nodup_nil, ?_, ?_⟩
  · exact ⟨(collectLinks resolve hrefs []).take ((collectLinks resolve hrefs []).length - 5),
      (List.take_append_drop _ _).symm⟩
  · show ((collectLinks resolve hrefs []).drop ((collectLinks resolve hrefs []).length - 5)).length
        = min 5 (collectLinks resolve hrefs []).length
    rw [List.length_drop]
    omega

/-- C7 witness: on an index page with only absolute hrefs the collected list
is duplicate-free and the selection is the last ≤ 5 links in discovery
order. -/
theorem collectLinks_selection_amended_witness :
    (collectLinks (fun s => s) hrefsW []).Nodup
    ∧ articlesToScrape (fun s => s) hrefsW = ["https://x.com/blog/1", "https://x.com/blog/2"] := by
  constructor
  · exact (collectLinks_selection_amended (fun s => s) hrefsW).1 (by
      intro h hm
      simp only [hrefsW, List.mem_cons, List.not_mem_nil, or_false, reduceCtorEq,
        Option.some.injEq, false_or] at hm
      rcases hm with rfl | rfl | rfl <;> decide)
  · decide

end BeyondChats
namespace BeyondChats

/-! ## C2 — the secondary-backend rate-limit retry policy -/

theorem geminiLoopAux_step_rl (gen : Nat → Except JsError String) (rem calls : Nat)
    (sleeps : List Nat) (e : JsError) (hge : gen calls = .error e)
    (hre : isRateLimit429 e = true) :
    geminiLoopAux gen (rem + 1) calls sleeps =
      geminiLoopAux gen rem (calls + 1) (sleeps ++ [65000]) := by
  show (match gen calls with
    | .ok s => Except.ok (s, calls + 1, sleeps)
    | .error e =>
      if isRateLimit429 e then geminiLoopAux gen rem (calls + 1) (sleeps ++ [65000])
      else .error e) = _
  rw [hge]
  simp [hre]

theorem geminiLoopAux_step_ok (gen : Nat → Except JsError String) (rem calls : Nat)
    (sleeps : List Nat) (s : String) (hge : gen calls = .ok s) :
    geminiLoopAux gen (rem + 1) calls sleeps = .ok (s, calls + 1, sleeps) := by
  show (match gen calls with
    | .ok s => Except.ok (s, calls + 1, sleeps)
    | .error e =>
      if isRateLimit429 e then geminiLoopAux gen rem (calls + 1) (sleeps ++ [65000])
      else .error e) = _
  rw [hge]

theorem geminiLoopAux_step_err (gen : Nat → Except JsError String) (rem calls : Nat)
    (sleeps : List Nat) (e : JsError) (hge : gen calls = .error e)
    (hre : isRateLimit429 e = false) :
    geminiLoopAux gen (rem + 1) calls sleeps = .error e := by
  show (match gen calls with
    | .ok s => Except.ok (s, calls + 1, sleeps)
    | .error e =>
      if isRateLimit429 e then geminiLoopAux gen rem (calls + 1) (sleeps ++ [65000])
      else .error e) = _
  rw [hge]
  simp [hre]

theorem geminiLoopAux_rl_run (gen : Nat → Except JsError String) :
    ∀ (j : Nat) (rem calls : Nat) (sleeps : List Nat),
      (∀ k, calls ≤ k → k < calls + j → ∃ e, gen k = .error e ∧ isRateLimit429 e = true) →
      j ≤ rem →
      geminiLoopAux gen rem calls sleeps =
        geminiLoopAux gen (rem - j) (calls + j) (sleeps ++ List.replicate j 65000) := by
  intro j
  induction j with
  | zero => intro rem calls sleeps _ _; simp
  | succ n ih =>
    intro rem calls sleeps hrl hle
    obtain ⟨rem2, rfl⟩ : ∃ rem2, rem = rem2 + 1 := ⟨rem - 1, by omega⟩
    obtain ⟨e, hge, hre⟩ := hrl calls (Nat.le_refl _) (by omega)
    rw [geminiLoopAux_step_rl gen rem2 calls sleeps e hge hre]
    rw [ih rem2 (calls + 1) (sleeps ++ [65000])
      (fun k hk1 hk2 => hrl k (by omega) (by omega)) (by omega)]
    have e1 : rem2 + 1 - (n + 1) = rem2 - n := by omega
    have e2 : calls + 1 + n = calls + (n + 1) := by omega
    have e3 : sleeps ++ [65000] ++ List.replicate n 65000 =
        sleeps ++ List.replicate (n + 1) 65000 := by
      rw [List.append_assoc, List.replicate_succ]
      rfl
    rw [e1, e2, e3]

theorem geminiLoopAux_ok_bounds (gen : Nat → Except JsError String) :
    ∀ (rem : Nat) (calls : Nat) (sleeps : List Nat) (s : String) (calls2 : Nat)
      (sleeps2 : List Nat),
      (∀ ms ∈ sleeps, ms = 65000) →
      geminiLoopAux gen rem calls sleeps = .ok (s, calls2, sleeps2) →
      calls2 ≤ calls + rem ∧ sleeps2.length ≤ sleeps.length + rem ∧ ∀ ms ∈ sleeps2, ms = 65000 := by
  intro rem
  induction rem with
  | zero =>
    intro calls sleeps s calls2 sleeps2 hall h
    simp only [geminiLoopAux, Except.ok.injEq, Prod.mk.injEq] at h
    obtain ⟨h1, h2, h3⟩ := h
    subst h2
    subst h3
    exact ⟨Nat.le_refl _, Nat.le_refl _, hall⟩
  | succ n ih =>
    intro calls sleeps s calls2 sleeps2 hall h
    cases hge : gen calls with
    | ok s3 =>
      rw [geminiLoopAux_step_ok gen n calls sleeps s3 hge] at h
      simp only [Except.ok.injEq, Prod.mk.injEq] at h
      obtain ⟨h1, h2, h3⟩ := h
      subst h2
      subst h3
      exact ⟨by omega, by omega, hall⟩
    | error e =>
      cases hre : isRateLimit429 e with
      | false =>
        rw [geminiLoopAux_step_err gen n calls sleeps e hge hre] at h
        cases h
      | true =>
        rw [geminiLoopAux_step_rl gen n calls sleeps e hge hre] at h
        have hall2 : ∀ ms ∈ sleeps ++ [65000], ms = 65000 := by
          intro ms hms
          rcases List.mem_append.mp hms with hl | hr
          · exact hall ms hl
          · simpa using hr
        obtain ⟨b1, b2, b3⟩ := ih (calls + 1) (sleeps ++ [65000]) s calls2 sleeps2 hall2 h
        refine ⟨by omega, ?_, b3⟩
        rw [List.length_append] at b2
        simp only [List.length_singleton] at b2
        omega

theorem rewriteArticle_gemini_path (env : LlmEnv) (h1 : env.hasOpenAI = false)
    (h2 : env.hasGemini = true) (t c : String) (refs : List ExtractedContent) :
    rewriteArticle env t c refs =
      (match geminiLoopAux (env.geminiGenerate (buildPrompt t c refs)) 5 0 [] with
       | .error e => .error (.llm e)
       | .ok (s, calls, sleeps) =>
         if s.isEmpty then .error .exhausted
         else .ok { result := { updatedContent := s, references := refs.map (fun r => r.url) },
                    llmCalls := calls, sleepsMs := sleeps }) := by
  unfold rewriteArticle
  rw [h1, h2]
  rfl

/-- C2: for rewrites routed to the secondary (Gemini) backend — no OpenAI
key, Gemini key present — the retry loop (i) turns a backend that
rate-limits on all of the first 5 calls into the rate-limit-exhausted error
after exactly 5 calls (not 6) with five 65-second cooldowns, (ii) turns a
backend that rate-limits exactly 4 times and then succeeds with non-empty
text into success after exactly 4 cooldown waits, (iii) propagates a
non-rate-limit error immediately without further retry, and (iv) in general
never makes more than 5 calls and only ever sleeps the fixed 65000 ms
cooldown. -/
theorem rewriteArticle_gemini_retry_policy :
    ∀ (env : LlmEnv) (t c : String) (refs : List ExtractedContent),
      env.hasOpenAI = false → env.hasGemini = true →
      (((∀ k, k < 5 → ∃ e, env.geminiGenerate (buildPrompt t c refs) k = .error e ∧
            isRateLimit429 e = true) →
          geminiLoopAux (env.geminiGenerate (buildPrompt t c refs)) 5 0 [] =
            .ok ("", 5, List.replicate 5 65000)
          ∧ rewriteArticle env t c refs = .error .exhausted)
       ∧ (∀ cOut, (∀ k, k < 4 → ∃ e, env.geminiGenerate (buildPrompt t c refs) k = .error e ∧
              isRateLimit429 e = true) →
            env.geminiGenerate (buildPrompt t c refs) 4 = .ok cOut → cOut.isEmpty = false →
            rewriteArticle env t c refs =
              .ok { result := { updatedContent := cOut, references := refs.map (fun r => r.url) },
                    llmCalls := 5, sleepsMs := List.replicate 4 65000 })
       ∧ (∀ j e, j < 5 →
            (∀ k, k < j → ∃ e2, env.geminiGenerate (buildPrompt t c refs) k = .error e2 ∧
              isRateLimit429 e2 = true) →
            env.geminiGenerate (buildPrompt t c refs) j = .error e → isRateLimit429 e = false →
            rewriteArticle env t c refs = .error (.llm e))
       ∧ (∀ s calls sleeps,
            geminiLoopAux (env.geminiGenerate (buildPrompt t c refs)) 5 0 [] =
              .ok (s, calls, sleeps) →
            calls ≤ 5 ∧ sleeps.length ≤ 5 ∧ ∀ ms ∈ sleeps, ms = 65000)) := by
  intro env t c refs h1 h2
  set gen := env.geminiGenerate (buildPrompt t c refs) with hgen
  refine ⟨fun hrl => ?_, fun cOut hrl hok hne => ?_, fun j e hj hrl hge hre => ?_,
    fun s calls sleeps h => ?_⟩
  · have hloop : geminiLoopAux gen 5 0 [] = .ok ("", 5, List.replicate 5 65000) := by
      rw [geminiLoopAux_rl_run gen 5 5 0 [] (fun k hk1 hk2 => hrl k (by omega)) (by omega)]
      simp [geminiLoopAux]
    refine ⟨hloop, ?_⟩
    rw [rewriteArticle_gemini_path env h1 h2 t c refs, hloop]
    rfl
  · have hloop : geminiLoopAux gen 5 0 [] = .ok (cOut, 5, List.replicate 4 65000) := by
      rw [geminiLoopAux_rl_run gen 4 5 0 [] (fun k hk1 hk2 => hrl k (by omega)) (by omega)]
      simp only [List.nil_append]
      exact geminiLoopAux_step_ok gen 0 4 (List.replicate 4 65000) cOut hok
    rw [rewriteArticle_gemini_path env h1 h2 t c refs, hloop]
    simp [hne]
  · have hloop : geminiLoopAux gen 5 0 [] = .error e := by
      rw [geminiLoopAux_rl_run gen j 5 0 [] (fun k hk1 hk2 => hrl k (by omega)) (by omega)]
      simp only [List.nil_append, Nat.zero_add]
      obtain ⟨r2, hr2⟩ : ∃ r2, 5 - j = r2 + 1 := ⟨4 - j, by omega⟩
      rw [hr2]
      exact geminiLoopAux_step_err gen r2 j (List.replicate j 65000) e hge hre
    rw [rewriteArticle_gemini_path env h1 h2 t c refs, hloop]
  · exact geminiLoopAux_ok_bounds gen 5 0 [] s calls sleeps (by simp) h

/-- C2 witness: the always-rate-limited mock fails with the exhausted error
after 5 attempts; the 4-times mock succeeds having slept 4 cooldowns of
65000 ms; the server-error mock propagates its error immediately. -/
theorem rewriteArticle_gemini_retry_policy_witness :
    rewriteArticle envGeminiAlways "T" "C" [] = .error .exhausted
    ∧ rewriteArticle envGemini4 "T" "C" [] =
        .ok { result := { updatedContent := "rewritten", references := [] },
              llmCalls := 5, sleepsMs := List.replicate 4 65000 }
    ∧ rewriteArticle envGeminiBoom "T" "C" [] =
        .error (.llm { status := some 500, message := "internal error" }) := by
  refine ⟨?_, ?_, ?_⟩
  · exact ((rewriteArticle_gemini_retry_policy envGeminiAlways "T" "C" [] rfl rfl).1
      (fun k hk => ⟨rl429, rfl, rfl⟩)).2
  · exact (rewriteArticle_gemini_retry_policy envGemini4 "T" "C" [] rfl rfl).2.1 "rewritten"
      (fun k hk => ⟨rl429, by
        show (if k < 4 then Except.error rl429 else Except.ok "rewritten") = Except.error rl429
        rw [if_pos hk], rfl⟩)
      rfl rfl
  · exact (rewriteArticle_gemini_retry_policy envGeminiBoom "T" "C" [] rfl rfl).2.2.1 2
      { status := some 500, message := "internal error" } (by omega)
      (fun k hk => ⟨rl429, by
        show (if k = 2 then Except.error { status := some 500, message := "internal error" }
          else Except.error rl429) = Except.error rl429
        rw [if_neg (by omega)], rfl⟩)
      rfl (by decide)

/-! ## C10 — successful rewrites carry non-empty content -/

theorem rewriteArticle_openai_path (env : LlmEnv) (h1 : env.hasOpenAI = true)
    (t c : String) (refs : List ExtractedContent) :
    rewriteArticle env t c refs =
      (match env.openaiGenerate (buildPrompt t c refs) with
       | .error e => .error (.llm e)
       | .ok s =>
         if s.isEmpty then .error .empty
         else .ok { result := { updatedContent := s, references := refs.map (fun r => r.url) },
                    llmCalls := 1, sleepsMs := [] }) := by
  unfold rewriteArticle
  rw [h1]
  rfl

theorem rewriteArticle_noBackend_path (env : LlmEnv) (h1 : env.hasOpenAI = false)
    (h2 : env.hasGemini = false) (t c : String) (refs : List ExtractedContent) :
    rewriteArticle env t c refs = .error .noBackend := by
  unfold rewriteArticle
  rw [h1, h2]
  rfl

theorem rewriteArticle_ok_nonempty (env : LlmEnv) (t c : String)
    (refs : List ExtractedContent) (tr : RewriteTrace)
    (h : rewriteArticle env t c refs = .ok tr) : tr.result.updatedContent ≠ "" := by
  cases h1 : env.hasOpenAI with
  | true =>
    rw [rewriteArticle_openai_path env h1 t c refs] at h
    split at h
    · cases h
    · rename_i s hgen
      split at h
      · cases h
      · rename_i hne
        cases h
        intro heq
        exact hne ((String.isEmpty_iff s).mpr heq)
  | false =>
    cases h2 : env.hasGemini with
    | false =>
      rw [rewriteArticle_noBackend_path env h1 h2 t c refs] at h
      cases h
    | true =>
      rw [rewriteArticle_gemini_path env h1 h2 t c refs] at h
      split at h
      · cases h
      · rename_i s calls sleeps hloop
        split at h
        · cases h
        · rename_i hne
          cases h
          intro heq
          exact hne ((String.isEmpty_iff s).mpr heq)

/-- C10: a successful `rewriteArticle` always returns a non-empty
`updatedContent` — with no backend configured it throws the configuration
error, and an empty OpenAI generation throws `LLM returned empty content`
instead of returning — and consequently every article record the
per-article enhancement step persists with `isUpdated = true` carries a
non-empty `updatedContent`. -/
theorem rewriteArticle_nonempty_content :
    (∀ (env : LlmEnv) (t c : String) (refs : List ExtractedContent) (tr : RewriteTrace),
        rewriteArticle env t c refs = .ok tr → tr.result.updatedContent ≠ "")
    ∧ (∀ (env : LlmEnv) (t c : String) (refs : List ExtractedContent),
        env.hasOpenAI = false → env.hasGemini = false →
        rewriteArticle env t c refs = .error .noBackend)
    ∧ (∀ (env : LlmEnv) (t c : String) (refs : List ExtractedContent),
        env.hasOpenAI = true →
        env.openaiGenerate (buildPrompt t c refs) = .ok "" →
        rewriteArticle env t c refs = .error .empty)
    ∧ (∀ (env : PipeEnv) (a u : Article),
        enhanceStep env a = .ok u →
        u.isUpdated = true ∧ ∃ s2, u.updatedContent = some s2 ∧ s2 ≠ "") := by
  refine ⟨rewriteArticle_ok_nonempty,
    fun env t c refs ha hb => rewriteArticle_noBackend_path env ha hb t c refs, ?_, ?_⟩
  · intro env t c refs h1 hgen
    rw [rewriteArticle_openai_path env h1 t c refs, hgen]
    rfl
  · intro env a u h
    unfold enhanceStep at h
    split at h
    · cases h
    · simp only [] at h
      split at h
      · cases h
      · rename_i tr hrw
        cases h
        exact ⟨rfl, tr.result.updatedContent, rfl, rewriteArticle_ok_nonempty _ _ _ _ _ hrw⟩

/-- C10 witness: the degenerate backends throw, and the concrete
single-article step through `envPipeW` persists `isUpdated = true` together
with the non-empty `"hello"`. -/
theorem rewriteArticle_nonempty_content_witness :
    rewriteArticle envNoKeys "T" "C" [] = .error .noBackend
    ∧ rewriteArticle envEmptyGen "T" "C" [] = .error .empty
    ∧ artWupd.isUpdated = true ∧ ∃ s2, artWupd.updatedContent = some s2 ∧ s2 ≠ "" := by
  refine ⟨rewriteArticle_nonempty_content.2.1 envNoKeys "T" "C" [] rfl rfl,
    rewriteArticle_nonempty_content.2.2.1 envEmptyGen "T" "C" [] rfl rfl, ?_, ?_⟩
  · exact (rewriteArticle_nonempty_content.2.2.2 envPipeW artW artWupd rfl).1
  · exact (rewriteArticle_nonempty_content.2.2.2 envPipeW artW artWupd rfl).2

/-! ## C3 — zero search results and degraded mode -/

theorem rewriteArticle_ok_references (env : LlmEnv) (t c : String)
    (refs : List ExtractedContent) (tr : RewriteTrace)
    (h : rewriteArticle env t c refs = .ok tr) :
    tr.result.references = refs.map (fun r => r.url) := by
  cases h1 : env.hasOpenAI with
  | true =>
    rw [rewriteArticle_openai_path env h1 t c refs] at h
    split at h
    · cases h
    · split at h
      · cases h
      · cases h
        rfl
  | false =>
    cases h2 : env.hasGemini with
    | false =>
      rw [rewriteArticle_noBackend_path env h1 h2 t c refs] at h
      cases h
    | true =>
      rw [rewriteArticle_gemini_path env h1 h2 t c refs] at h
      split at h
      · cases h
      · split at h
        · cases h
        · cases h
          rfl

/-- C3, counterexample: an article whose title search returns zero results
(the search page times out) under a fully working LLM backend — the HTTP
per-article step proceeds in degraded mode and persists `references = []`,
but the standalone update script's per-article sequence (the cited Phase 2
loop) counts the article as a failure and never rewrites or persists it,
contradicting the claim's universal statement. -/
theorem scriptStep_degraded_cex :
    searchGoogle SearchPage.timeout 2 = []
    ∧ rewriteArticle envPipeW.llm artW.title artW.content [] =
        .ok { result := { updatedContent := "hello", references := [] },
              llmCalls := 1, sleepsMs := [] }
    ∧ scriptStep envPipeW artW = ScriptOutcome.failed
    ∧ enhanceStep envPipeW artW = .ok artWupd :=
  ⟨rfl, rfl, rfl, rfl⟩

/-- C3 (amended): when the title search returns zero results, the HTTP
enhancement endpoints proceed in degraded mode — the rewrite step is invoked
with zero reference documents and, when it succeeds, the persisted record
has `isUpdated = true` and `references = []` — whereas the standalone update
script instead counts such an article as a failure and skips it. -/
theorem enhance_degraded_mode_amended :
    ∀ (env : PipeEnv) (a : Article) (page : SearchPage),
      env.fetchSearch a.title = .ok page → searchGoogle page 2 = [] →
      (∀ tr, rewriteArticle env.llm a.title a.content [] = .ok tr →
          tr.result.references = []
          ∧ enhanceStep env a =
              .ok ({ a with isUpdated := true, updatedContent := some tr.result.updatedContent, references := [] } : Article))
      ∧ scriptStep env a = ScriptOutcome.failed := by
  intro env a page hfetch hsr
  constructor
  · intro tr hrw
    have hrefs : tr.result.references = [] :=
      rewriteArticle_ok_references env.llm a.title a.content [] tr hrw
    constructor
    · exact hrefs
    · unfold enhanceStep
      rw [hfetch]
      simp only [hsr, List.length_nil, gt_iff_lt, Nat.lt_irrefl, if_false, hrw, hrefs]
  · unfold scriptStep
    rw [hfetch]
    simp only [hsr, List.length_nil]
    rfl

/-! ## Batch-run machinery (for C1 and C8) -/

theorem enhanceStep_ok_cases (env : PipeEnv) (a u : Article)
    (h : enhanceStep env a = .ok u) :
    ∃ (tr : RewriteTrace) (refs : List ExtractedContent),
      rewriteArticle env.llm a.title a.content refs = .ok tr
      ∧ u = { a with isUpdated := true, updatedContent := some tr.result.updatedContent, references := tr.result.references } := by
  unfold enhanceStep at h
  split at h
  · cases h
  · simp only [] at h
    split at h
    · cases h
    · rename_i tr hrw
      cases h
      exact ⟨tr, _, hrw, rfl⟩

theorem enhanceStep_ok_id (env : PipeEnv) (a u : Article) (h : enhanceStep env a = .ok u) :
    u.id = a.id := by
  obtain ⟨tr, refs, hrw, rfl⟩ := enhanceStep_ok_cases env a u h
  rfl

theorem enhanceStep_ok_isUpdated (env : PipeEnv) (a u : Article)
    (h : enhanceStep env a = .ok u) : u.isUpdated = true := by
  obtain ⟨tr, refs, hrw, rfl⟩ := enhanceStep_ok_cases env a u h
  rfl

theorem runBatch_store (env : PipeEnv) :
    ∀ (todo st : List Article),
      (runBatch env todo st).store = st.map (applyAll env todo) := by
  intro todo
  induction todo with
  | nil =>
    intro st
    show st = st.map (fun b => b)
    rw [List.map_id']
  | cons a todo ih =>
    intro st
    cases hstep : enhanceStep env a with
    | ok u =>
      simp only [runBatch, hstep]
      rw [ih, List.map_map]
      refine List.map_congr_left (fun b _ => ?_)
      have hfba : (if b.id == a.id then stepApply env a b else b)
          = (if b.id == a.id then u else b) := by
        simp only [stepApply, hstep]
      exact (congrArg (applyAll env todo) hfba).symm
    | error e =>
      simp only [runBatch, hstep]
      rw [ih]
      refine List.map_congr_left (fun b _ => ?_)
      have hfba : (if b.id == a.id then stepApply env a b else b) = b := by
        simp only [stepApply, hstep]
        rw [ite_self]
      exact (congrArg (applyAll env todo) hfba).symm

theorem toOption_ok {ε α : Type} (x : α) : (Except.ok x : Except ε α).toOption = some x := rfl

theorem toOption_error {ε α : Type} (e : ε) :
    (Except.error e : Except ε α).toOption = none := rfl

theorem runBatch_counts (env : PipeEnv) :
    ∀ (todo st : List Article),
      (runBatch env todo st).success = (todo.filter (fun a => stepOk env a)).length
      ∧ (runBatch env todo st).failure = (todo.filter (fun a => !stepOk env a)).length
      ∧ (runBatch env todo st).success + (runBatch env todo st).failure = todo.length
      ∧ (runBatch env todo st).enhanced = todo.filterMap (fun a => (enhanceStep env a).toOption) := by
  intro todo
  induction todo with
  | nil => intro st; exact ⟨rfl, rfl, rfl, rfl⟩
  | cons a todo ih =>
    intro st
    cases hstep : enhanceStep env a with
    | ok u =>
      have hs : stepOk env a = true := by simp only [stepOk, hstep]
      obtain ⟨i1, i2, i3, i4⟩ := ih (st.map (fun b => if b.id == a.id then u else b))
      refine ⟨?_, ?_, ?_, ?_⟩
      · simp only [runBatch, hstep, List.filter_cons, hs, if_true, List.length_cons]
        rw [i1]
      · simp only [runBatch, hstep, List.filter_cons, hs, Bool.not_true]
        rw [i2]
        simp
      · simp only [runBatch, hstep, List.length_cons]
        omega
      · simp only [runBatch, hstep, List.filterMap_cons, toOption_ok]
        rw [i4]
    | error e =>
      have hs : stepOk env a = false := by simp only [stepOk, hstep]
      obtain ⟨i1, i2, i3, i4⟩ := ih st
      refine ⟨?_, ?_, ?_, ?_⟩
      · simp only [runBatch, hstep, List.filter_cons, hs]
        rw [i1]
        simp
      · simp only [runBatch, hstep, List.filter_cons, hs, Bool.not_false, if_true,
          List.length_cons]
        rw [i2]
      · simp only [runBatch, hstep, List.length_cons]
        omega
      · simp only [runBatch, hstep, List.filterMap_cons, toOption_error]
        rw [i4]

theorem applyAll_id (env : PipeEnv) :
    ∀ (todo : List Article) (b : Article), (applyAll env todo b).id = b.id := by
  intro todo
  induction todo with
  | nil => intro b; rfl
  | cons a todo ih =>
    intro b
    show (applyAll env todo (if b.id == a.id then stepApply env a b else b)).id = b.id
    rw [ih]
    by_cases hid : (b.id == a.id) = true
    · rw [if_pos hid]
      cases hstep : enhanceStep env a with
      | ok u =>
        have hsa : stepApply env a b = u := by simp only [stepApply, hstep]
        rw [hsa, enhanceStep_ok_id env a u hstep]
        exact (beq_iff_eq.mp hid).symm
      | error e =>
        have hsa : stepApply env a b = b := by simp only [stepApply, hstep]
        rw [hsa]
    · rw [if_neg hid]

theorem applyAll_isUpdated_mono (env : PipeEnv) :
    ∀ (todo : List Article) (b : Article), b.isUpdated = true →
      (applyAll env todo b).isUpdated = true := by
  intro todo
  induction todo with
  | nil => intro b hb; exact hb
  | cons a todo ih =>
    intro b hb
    show (applyAll env todo (if b.id == a.id then stepApply env a b else b)).isUpdated = true
    apply ih
    by_cases hid : (b.id == a.id) = true
    · rw [if_pos hid]
      cases hstep : enhanceStep env a with
      | ok u =>
        have hsa : stepApply env a b = u := by simp only [stepApply, hstep]
        rw [hsa]
        exact enhanceStep_ok_isUpdated env a u hstep
      | error e =>
        have hsa : stepApply env a b = b := by simp only [stepApply, hstep]
        rw [hsa]
        exact hb
    · rw [if_neg hid]
      exact hb

theorem applyAll_cases (env : PipeEnv) :
    ∀ (todo : List Article) (b : Article),
      applyAll env todo b = b
      ∨ ∃ a ∈ todo, ∃ u, enhanceStep env a = .ok u ∧ applyAll env todo b = u := by
  intro todo
  induction todo with
  | nil => intro b; exact Or.inl rfl
  | cons a todo ih =>
    intro b
    by_cases hid : (b.id == a.id) = true
    · cases hstep : enhanceStep env a with
      | ok u =>
        have hx : applyAll env (a :: todo) b = applyAll env todo u := by
          show applyAll env todo (if b.id == a.id then stepApply env a b else b) = _
          rw [if_pos hid]
          have hsa : stepApply env a b = u := by simp only [stepApply, hstep]
          rw [hsa]
        rcases ih u with h | ⟨a2, ha2, u2, hstep2, heq⟩
        · exact Or.inr ⟨a, List.mem_cons_self _ _, u, hstep, by rw [hx, h]⟩
        · exact Or.inr ⟨a2, List.mem_cons_of_mem _ ha2, u2, hstep2, by rw [hx, heq]⟩
      | error e =>
        have hx : applyAll env (a :: todo) b = applyAll env todo b := by
          show applyAll env todo (if b.id == a.id then stepApply env a b else b) = _
          rw [if_pos hid]
          have hsa : stepApply env a b = b := by simp only [stepApply, hstep]
          rw [hsa]
        rcases ih b with h | ⟨a2, ha2, u2, hstep2, heq⟩
        · exact Or.inl (by rw [hx, h])
        · exact Or.inr ⟨a2, List.mem_cons_of_mem _ ha2, u2, hstep2, by rw [hx, heq]⟩
    · have hx : applyAll env (a :: todo) b = applyAll env todo b := by
        show applyAll env todo (if b.id == a.id then stepApply env a b else b) = _
        rw [if_neg hid]
      rcases ih b with h | ⟨a2, ha2, u2, hstep2, heq⟩
      · exact Or.inl (by rw [hx, h])
      · exact Or.inr ⟨a2, List.mem_cons_of_mem _ ha2, u2, hstep2, by rw [hx, heq]⟩

theorem applyAll_skip (env : PipeEnv) :
    ∀ (todo : List Article) (b : Article), (∀ a ∈ todo, a.id ≠ b.id) →
      applyAll env todo b = b := by
  intro todo
  induction todo with
  | nil => intro b _; rfl
  | cons a todo ih =>
    intro b hne
    have hid : (b.id == a.id) = false := by
      rw [beq_eq_false_iff_ne]
      exact fun hh => hne a (List.mem_cons_self _ _) hh.symm
    show applyAll env todo (if b.id == a.id then stepApply env a b else b) = b
    rw [hid, if_neg Bool.false_ne_true]
    exact ih b (fun a2 ha2 => hne a2 (List.mem_cons_of_mem _ ha2))

theorem applyAll_mem_nodup (env : PipeEnv) :
    ∀ (todo : List Article), ((todo.map (fun a => a.id)).Nodup) →
      ∀ a ∈ todo, applyAll env todo a = stepApply env a a := by
  intro todo
  induction todo with
  | nil => intro _ a ha; simp at ha
  | cons a0 todo ih =>
    intro hnd a ha
    rw [List.map_cons, List.nodup_cons] at hnd
    rcases List.mem_cons.mp ha with rfl | hmem
    · show applyAll env todo (if a.id == a.id then stepApply env a a else a) = stepApply env a a
      rw [if_pos (beq_self_eq_true a.id)]
      apply applyAll_skip
      intro a2 ha2
      have hsid : (stepApply env a a).id = a.id := by
        cases hstep : enhanceStep env a with
        | ok u =>
          simp only [stepApply, hstep]
          exact enhanceStep_ok_id env a u hstep
        | error e => simp only [stepApply, hstep]
      rw [hsid]
      intro hh
      exact hnd.1 (hh ▸ List.mem_map_of_mem (fun x => x.id) ha2)
    · have hne : (a.id == a0.id) = false := by
        rw [beq_eq_false_iff_ne]
        intro hh
        exact hnd.1 (hh ▸ List.mem_map_of_mem (fun x => x.id) hmem)
      show applyAll env todo (if a.id == a0.id then stepApply env a0 a else a) = stepApply env a a
      rw [hne, if_neg Bool.false_ne_true]
      exact ih hnd.2 a hmem

theorem selectBatch_sublist (store : List Article) :
    List.Sublist (selectBatch store) store :=
  (List.take_sublist _ _).trans (List.filter_sublist _)

/-! ## C1 — batch failure isolation -/

/-- C1: in a batch enhancement run over the selected articles (up to 5 with
`isUpdated = false`), the returned tallies are exactly the number of
articles whose per-article step succeeded and the number whose step threw
(so one exception never aborts the batch: success + failure covers the whole
batch), the returned list is the updated records of the successful steps in
order, every article whose step succeeded is persisted as the updated record
with `isUpdated = true`, every article whose step threw (in particular at
the rewrite stage) keeps its stored record completely unchanged, and
articles outside the batch are untouched. -/
theorem enhanceArticles_batch_isolation :
    ∀ (env : PipeEnv) (store : List Article),
      (store.map (fun a => a.id)).Nodup →
      (enhanceArticles env store).success =
          ((selectBatch store).filter (fun a => stepOk env a)).length
      ∧ (enhanceArticles env store).failure =
          ((selectBatch store).filter (fun a => !stepOk env a)).length
      ∧ (enhanceArticles env store).success + (enhanceArticles env store).failure =
          (selectBatch store).length
      ∧ (enhanceArticles env store).enhanced =
          (selectBatch store).filterMap (fun a => (enhanceStep env a).toOption)
      ∧ (∀ a ∈ selectBatch store, ∀ b2 ∈ (enhanceArticles env store).store, b2.id = a.id →
          (∀ u, enhanceStep env a = .ok u → b2 = u ∧ b2.isUpdated = true)
          ∧ (∀ e, enhanceStep env a = .error e → b2 = a))
      ∧ (∀ b ∈ store, b.id ∉ (selectBatch store).map (fun a => a.id) →
          b ∈ (enhanceArticles env store).store) := by
  intro env store hnd
  obtain ⟨c1, c2, c3, c4⟩ := runBatch_counts env (selectBatch store) store
  have hstore : (enhanceArticles env store).store
      = store.map (applyAll env (selectBatch store)) :=
    runBatch_store env (selectBatch store) store
  refine ⟨c1, c2, c3, c4, ?_, ?_⟩
  · intro a ha b2 hb2 hid
    rw [hstore] at hb2
    obtain ⟨b0, hb0, rfl⟩ := List.mem_map.mp hb2
    rw [applyAll_id env (selectBatch store) b0] at hid
    have hmem_a : a ∈ store := (selectBatch_sublist store).subset ha
    have hb0a : b0 = a := List.inj_on_of_nodup_map hnd hb0 hmem_a hid
    subst hb0a
    have hnd_batch : ((selectBatch store).map (fun a => a.id)).Nodup :=
      ((selectBatch_sublist store).map (fun a => a.id)).nodup hnd
    have happ := applyAll_mem_nodup env (selectBatch store) hnd_batch b0 ha
    constructor
    · intro u hu
      have hsa : stepApply env b0 b0 = u := by simp only [stepApply, hu]
      constructor
      · rw [happ, hsa]
      · rw [happ, hsa]
        exact enhanceStep_ok_isUpdated env b0 u hu
    · intro e he
      have hsa : stepApply env b0 b0 = b0 := by simp only [stepApply, he]
      rw [happ, hsa]
  · intro b hb hnotin
    rw [hstore]
    refine List.mem_map.mpr ⟨b, hb, ?_⟩
    apply applyAll_skip
    intro a2 ha2 hh
    exact hnotin (hh ▸ List.mem_map_of_mem (fun a => a.id) ha2)

/-- C1 witness: over the 5-article store where article #3's step throws, the
batch reports 4 successes and 1 failure, the four other articles are
persisted with `isUpdated = true`, and article #3's record is unchanged. -/
theorem enhanceArticles_batch_isolation_witness :
    (storeW.map (fun a => a.id)).Nodup
    ∧ (enhanceArticles envW storeW).success =
        ((selectBatch storeW).filter (fun a => stepOk envW a)).length
    ∧ (enhanceArticles envW storeW).success = 4
    ∧ (enhanceArticles envW storeW).failure = 1
    ∧ (enhanceArticles envW storeW).store.map (fun a => a.isUpdated) =
        [true, true, false, true, true]
    ∧ mkArt 3 "C" "cc" "u3" ∈ (enhanceArticles envW storeW).store := by
  refine ⟨by decide, (enhanceArticles_batch_isolation envW storeW (by decide)).1,
    by decide, by decide, by decide, by decide⟩

/-! ## C8 — the isUpdated flag -/

/-- C8, counterexample: the claim says no operation of the system ever
transitions `isUpdated` from true back to false, but the generic update
endpoint spreads `isUpdated` whenever the field is present
(`isUpdated !== undefined`), so a `PUT` with body `{isUpdated: false}` on an
enhanced article resets the flag to false. -/
theorem updateArticle_isUpdated_reset_cex :
    artTrue.isUpdated = true
    ∧ updateArticle [artTrue] 9 bodyReset =
        .ok ([{ artTrue with isUpdated := false }], { artTrue with isUpdated := false })
    ∧ ({ artTrue with isUpdated := false } : Article).isUpdated = false := by
  refine ⟨rfl, by decide, rfl⟩

/-- C8 (amended): the enhancement pipeline itself is monotonic — a batch run
never turns any record's `isUpdated` from true to false, and every record it
leaves with `isUpdated = true` either was already in the store before the
run or carries a non-empty `updatedContent` written in the same store update
— but the generic update endpoint can reset `isUpdated` to false when the
request body explicitly contains `isUpdated: false`. -/
theorem pipeline_isUpdated_monotone_amended :
    ∀ (env : PipeEnv) (store : List Article),
      (store.map (fun a => a.id)).Nodup →
      (∀ b ∈ store, b.isUpdated = true →
        ∀ b2 ∈ (enhanceArticles env store).store, b2.id = b.id → b2.isUpdated = true)
      ∧ (∀ b2 ∈ (enhanceArticles env store).store, b2.isUpdated = true →
          b2 ∈ store ∨ ∃ s, b2.updatedContent = some s ∧ s ≠ "") := by
  intro env store hnd
  have hstore : (enhanceArticles env store).store
      = store.map (applyAll env (selectBatch store)) :=
    runBatch_store env (selectBatch store) store
  constructor
  · intro b hb hbtrue b2 hb2 hid
    rw [hstore] at hb2
    obtain ⟨b0, hb0, rfl⟩ := List.mem_map.mp hb2
    rw [applyAll_id env (selectBatch store) b0] at hid
    have hb0b : b0 = b := List.inj_on_of_nodup_map hnd hb0 hb hid
    subst hb0b
    exact applyAll_isUpdated_mono env (selectBatch store) b0 hbtrue
  · intro b2 hb2 _
    rw [hstore] at hb2
    obtain ⟨b0, hb0, rfl⟩ := List.mem_map.mp hb2
    rcases applyAll_cases env (selectBatch store) b0 with heq | ⟨a, _, u, hstep, heq⟩
    · exact Or.inl (by rw [heq]; exact hb0)
    · rw [heq]
      obtain ⟨tr, refs, hrw, rfl⟩ := enhanceStep_ok_cases env a u hstep
      exact Or.inr ⟨tr.result.updatedContent, rfl,
        rewriteArticle_ok_nonempty env.llm a.title a.content refs tr hrw⟩

/-- C8 witness: running the batch over `storeM` under `envPipeW` leaves the
already-enhanced article's flag true (via the monotonicity theorem) and
every record of the resulting store is enhanced with non-empty content or
untouched. -/
theorem pipeline_isUpdated_monotone_amended_witness :
    (storeM.map (fun a => a.id)).Nodup
    ∧ (∀ b2 ∈ (enhanceArticles envPipeW storeM).store, b2.id = artTrue.id →
        b2.isUpdated = true)
    ∧ (enhanceArticles envPipeW storeM).store.map (fun a => a.isUpdated) = [true, true] := by
  refine ⟨by decide, ?_, by decide⟩
  exact (pipeline_isUpdated_monotone_amended envPipeW storeM (by decide)).1
    artTrue (by decide) rfl

/-! ## C9 — originalUrl uniqueness across creation paths -/

/-- C9: the explicit create endpoint rejects a body whose `originalUrl`
already exists with the HTTP 409 duplicate error; a successful create
appends exactly one record and preserves URL-uniqueness of the store; the
scrape-persist loop silently skips scraped articles whose `originalUrl`
already exists, preserves URL-uniqueness, and only ever appends to the
store — so neither path ever creates a second record with the same
`originalUrl`. -/
theorem originalUrl_uniqueness :
    (∀ (store : List Article) (body : CreateBody),
        (∃ a ∈ store, a.originalUrl = body.originalUrl) →
        createArticle store body = .error (409, "Article with this URL already exists"))
    ∧ (∀ (store : List Article) (body : CreateBody) (st2 : List Article) (a : Article),
        (store.map (fun x => x.originalUrl)).Nodup →
        createArticle store body = .ok (st2, a) →
        (st2.map (fun x => x.originalUrl)).Nodup ∧ st2 = store ++ [a])
    ∧ (∀ (store : List Article) (scraped : List ScrapedArticle),
        (store.map (fun x => x.originalUrl)).Nodup →
        (((scrapePersist store scraped).1).map (fun x => x.originalUrl)).Nodup)
    ∧ (∀ (store : List Article) (scraped : List ScrapedArticle),
        ∃ ext, (scrapePersist store scraped).1 = store ++ ext) := by
  have happend : ∀ (store : List Article) (w : Article),
      (store.map (fun x => x.originalUrl)).Nodup →
      store.find? (fun x => x.originalUrl == w.originalUrl) = none →
      ((store ++ [w]).map (fun x => x.originalUrl)).Nodup := by
    intro store w hnd hfind
    have hnotin : w.originalUrl ∉ store.map (fun x => x.originalUrl) := by
      intro hmem
      obtain ⟨x, hx, hxe⟩ := List.mem_map.mp hmem
      exact absurd (beq_iff_eq.mpr hxe) (by simpa using List.find?_eq_none.mp hfind x hx)
    rw [List.map_append]
    simp [List.nodup_append, hnd, hnotin]
  refine ⟨?_, ?_, ?_, ?_⟩
  · intro store body ⟨a, ha, hurl⟩
    cases hfind : store.find? (fun x => x.originalUrl == body.originalUrl) with
    | none =>
      exact absurd (beq_iff_eq.mpr hurl)
        (by simpa using List.find?_eq_none.mp hfind a ha)
    | some x =>
      unfold createArticle
      rw [hfind]
  · intro store body st2 a hnd hok
    cases hfind : store.find? (fun x => x.originalUrl == body.originalUrl) with
    | some x =>
      unfold createArticle at hok
      rw [hfind] at hok
      cases hok
    | none =>
      unfold createArticle at hok
      rw [hfind] at hok
      simp only [Except.ok.injEq, Prod.mk.injEq] at hok
      obtain ⟨hst, ha⟩ := hok
      subst ha
      subst hst
      refine ⟨?_, rfl⟩
      exact happend store _ hnd hfind
  · intro store scraped
    induction scraped generalizing store with
    | nil => intro hnd; exact hnd
    | cons s rest ih =>
      intro hnd
      cases hfind : store.find? (fun x => x.originalUrl == s.originalUrl) with
      | some x =>
        simp only [scrapePersist, hfind]
        exact ih store hnd
      | none =>
        simp only [scrapePersist, hfind]
        exact ih (store ++ [articleOfScraped (freshId store) s])
          (happend store _ hnd hfind)
  · intro store scraped
    induction scraped generalizing store with
    | nil => exact ⟨[], (List.append_nil store).symm⟩
    | cons s rest ih =>
      cases hfind : store.find? (fun x => x.originalUrl == s.originalUrl) with
      | some x =>
        simp only [scrapePersist, hfind]
        exact ih store
      | none =>
        simp only [scrapePersist, hfind]
        obtain ⟨ext, hext⟩ := ih (store ++ [articleOfScraped (freshId store) s])
        refine ⟨articleOfScraped (freshId store) s :: ext, ?_⟩
        rw [hext, List.append_assoc]
        rfl

/-- C9 witness: creating a duplicate of `u1` over the 5-article store fails
with 409; scrape-persisting `scrapedW` stores exactly one new record (the
first `u9`), keeping the URL list duplicate-free. -/
theorem originalUrl_uniqueness_witness :
    (storeW.map (fun x => x.originalUrl)).Nodup
    ∧ createArticle storeW bodyW = .error (409, "Article with this URL already exists")
    ∧ (((scrapePersist storeW scrapedW).1).map (fun x => x.originalUrl)).Nodup
    ∧ (scrapePersist storeW scrapedW).2 = 1 := by
  refine ⟨by decide,
    originalUrl_uniqueness.1 storeW bodyW ⟨mkArt 1 "A" "ca" "u1", by decide, rfl⟩,
    originalUrl_uniqueness.2.2.1 storeW scrapedW (by decide), by decide⟩

/-- C3 witness: under `envPipeW` (search times out, OpenAI returns
`"hello"`) the controller's per-article step persists the degraded-mode
record with `references = []` while the standalone script counts the same
article as a failure. -/
theorem enhance_degraded_mode_amended_witness :
    trHello.result.references = ([] : List String)
    ∧ enhanceStep envPipeW artW = .ok artWupd
    ∧ scriptStep envPipeW artW = ScriptOutcome.failed := by
  have h := enhance_degraded_mode_amended envPipeW artW SearchPage.timeout rfl rfl
  have h1 := h.1 trHello rfl
  exact ⟨h1.1, h1.2, h.2⟩
